import Mathlib

/-!
Shallow embedding of the mdbook-ai-pocket-reference preprocessor core
(`src/ai_pocket_reference.rs`). Text is modelled as `List Char`; byte
offsets of the Rust code become list indices (all inputs of interest are
ASCII, where the two coincide). The regex-driven scanners are embedded as
explicit matchers that reproduce the leftmost-first, greedy, non-overlapping
semantics of the `regex` crate on the two concrete patterns used by the
source. The handlebars template collaborator is out of scope for the core
(it is consumed only through a `render(data) -> text` contract), so the
replacement passes are parameterised by a template function returning
`Except`; the `.unwrap()` calls of the source, which panic on a render
error, are modelled by an `Option` result where `none` stands for the panic
(no string is produced at all).
-/

/-- Whitespace test modelling the regex class `\s` and Rust `str::trim`
(restricted to the ASCII whitespace characters, which are the only ones the
claims exercise). -/
def isWs (c : Char) : Bool :=
  c = ' ' || c = '\t' || c = '\n' || c = '\r' || c = '\x0b' || c = '\x0c'

/-- Character class `[a-zA-Z0-9_]` of the directive-name capture group. -/
def isWordChar (c : Char) : Bool :=
  c.isAlpha || c.isDigit || c = '_'

/-- Rust slice `&s[a..b]`. -/
def sliceStr (s : List Char) (a b : Nat) : List Char :=
  (s.take b).drop a

/-- Rust `str::trim` on both ends. -/
def trimChars (w : List Char) : List Char :=
  ((w.dropWhile isWs).reverse.dropWhile isWs).reverse

/-- Rust `str::split_once(sep)`: split at the first occurrence of `sep`,
returning the parts before and after it, or `none` when `sep` is absent. -/
def splitOnce (sep : Char) : List Char → Option (List Char × List Char)
  | [] => none
  | c :: rest =>
      if c = sep then some ([], rest)
      else (splitOnce sep rest).map (fun p => (c :: p.1, p.2))

/-- One `key=value` token of the parameter mini-language: split at the first
`=` and trim both sides; a token without `=` yields `none`. -/
def paramPair (pair : List Char) : Option (List Char × List Char) :=
  (splitOnce '=' pair).map (fun p => (trimChars p.1, trimChars p.2))

/-- Embedding of `_parse_param_str`: split the parameter string on commas,
keep the tokens containing `=` as trimmed key/value pairs (in order; the
Rust code collects them into a `HashMap`, which is modelled by the ordered
pair list together with last-occurrence lookup `getParam`). -/
def _parse_param_str (param_str : List Char) : List (List Char × List Char) :=
  (param_str.splitOn ',').filterMap paramPair

/-- Lookup in the pair list with `HashMap::collect` semantics: when a key was
inserted several times the last insertion wins. -/
def getParam (m : List (List Char × List Char)) (k : List Char) : Option (List Char) :=
  ((m.filter (fun p => p.1 = k)).getLast?).map (fun p => p.2)

/-- Header settings record (`AIPRHeaderSettings`). -/
structure AIPRHeaderSettings where
  reading_time : Bool
  submit_issue : Bool
  colab : Option (List Char)
  deriving DecidableEq, Repr

/-- The `Default` impl of `AIPRHeaderSettings`. -/
def AIPRHeaderSettings.default : AIPRHeaderSettings :=
  { reading_time := true, submit_issue := true, colab := none }

/-- Embedding of `AIPRHeaderSettings::from_param_str`: `colab` takes the map
value verbatim when present; each boolean is `true` unless its key maps to
exactly `"false"`. -/
def AIPRHeaderSettings.from_param_str (param_str : List Char) : AIPRHeaderSettings :=
  let param_map := _parse_param_str param_str
  { reading_time := !(decide (getParam param_map ("reading_time".data) = some ("false".data)))
    submit_issue := !(decide (getParam param_map ("submit_issue".data) = some ("false".data)))
    colab := getParam param_map ("colab".data) }

/-- Capture content of one match of the directive regex
`\\\{\{\#.*\}\}|\{\{\s*\#([a-zA-Z0-9_]+)\s+([^}]+)?\}\}`:
either the escaped alternative (both capture groups absent) or the directive
alternative with group 1 (the name) and optional group 2 (the parameter
blob). -/
inductive AiprCap where
  | escaped : AiprCap
  | directive : List Char → Option (List Char) → AiprCap
  deriving DecidableEq, Repr

/-- One raw, unfiltered match of a scan: half-open span plus capture data. -/
structure RawMatch (α : Type) where
  start_index : Nat
  end_index : Nat
  cap : α
  deriving DecidableEq, Repr

/-- Greedy matcher for the escaped alternative `\\\{\{\#.*\}\}` at the head
of `t`. After the mandatory prefix `\x5c\x7b\x7b#` the dot-star may span any
characters except a newline, and the regex engine prefers the longest such
content followed by the literal close `\x7d\x7d`; so the result consumes up
to the last close marker reachable without crossing a newline. Returns the
total matched length. -/
def matchEscA (t : List Char) : Option Nat :=
  match t with
  | '\x5c' :: '\x7b' :: '\x7b' :: '#' :: rest =>
      (((List.range (rest.length + 1)).filter (fun k =>
          ((rest.take k).all (fun c => c ≠ '\n')) &&
          ((rest.drop k).take 2 = ['\x7d', '\x7d'] : Bool))).getLast?).map
        (fun k => 4 + k + 2)
  | _ => none

/-- Matcher for the directive alternative
`\{\{\s*\#([a-zA-Z0-9_]+)\s+([^}]+)?\}\}` at the head of `t`. Each
sub-pattern is forced here (the following literal is excluded from the
preceding class), so greedy matching is deterministic: maximal whitespace
run, maximal name run (nonempty), mandatory nonempty whitespace run, maximal
run of non-close characters as the optional parameter group, then the close
marker. Returns total length, group 1 and optional group 2. -/
def matchDirB (t : List Char) : Option (Nat × List Char × Option (List Char)) :=
  match t with
  | '\x7b' :: '\x7b' :: rest =>
      let ws := rest.takeWhile isWs
      let r1 := rest.drop ws.length
      match r1 with
      | '#' :: r2 =>
          let name := r2.takeWhile isWordChar
          if name.isEmpty then none
          else
            let r3 := r2.drop name.length
            let ws2 := r3.takeWhile isWs
            if ws2.isEmpty then none
            else
              let r4 := r3.drop ws2.length
              let params := r4.takeWhile (fun c => c ≠ '\x7d')
              let r5 := r4.drop params.length
              match r5 with
              | '\x7d' :: '\x7d' :: _ =>
                  some (2 + ws.length + 1 + name.length + ws2.length + params.length + 2,
                        name, if params.isEmpty then none else some params)
              | _ => none
      | _ => none
  | _ => none

/-- One attempt of the full directive regex at the head of `t`: the escaped
alternative has priority (their first characters differ anyway, so the two
alternatives can never both match at one position). -/
def aiprMatchAt (t : List Char) : Option (Nat × AiprCap) :=
  match matchEscA t with
  | some len => some (len, AiprCap.escaped)
  | none =>
      (matchDirB t).map (fun r => (r.1, AiprCap.directive r.2.1 r.2.2))

/-- Leftmost match search from position `p`: the first position at or after
`p` where the matcher succeeds, together with the matched length and capture
(regex `find_at` semantics). -/
def findFrom (matchAt : List Char → Option (Nat × α)) (s : List Char) (p : Nat) :
    Option (Nat × Nat × α) :=
  (List.range (s.length + 1 - p)).findSome? (fun d =>
    (matchAt (s.drop (p + d))).map (fun r => (p + d, r.1, r.2)))

/-- Scan loop with regex `captures_iter` semantics: repeatedly find the
leftmost match at or after the current position and continue right after its
end. Matches of the two patterns at hand are never empty, so the position
strictly increases; the fuel argument (instantiated with `s.length + 1`)
only serves termination. -/
def scanAux (matchAt : List Char → Option (Nat × α)) (s : List Char) :
    Nat → Nat → List (RawMatch α)
  | 0, _ => []
  | fuel + 1, p =>
      match findFrom matchAt s p with
      | none => []
      | some (st, len, a) => ⟨st, st + len, a⟩ :: scanAux matchAt s fuel (st + len)

/-- All raw matches of the directive regex over `s`, leftmost first,
non-overlapping. -/
def rawAiprScan (s : List Char) : List (RawMatch AiprCap) :=
  scanAux aiprMatchAt s (s.length + 1) 0

/-- A resolved directive occurrence (`AIPRLink`; the single link type
`Header` is inlined as its settings record). -/
structure AIPRLink where
  start_index : Nat
  end_index : Nat
  settings : AIPRHeaderSettings
  link_text : List Char
  deriving DecidableEq, Repr

/-- Embedding of `AIPRLink::from_capture`: only directive matches whose name
is `aipr_header` are kept; a missing parameter group gives the default
settings, a present one is trimmed and parsed. The escaped alternative has
no group 1 and is dropped. -/
def AIPRLink.from_capture (s : List Char) (m : RawMatch AiprCap) : Option AIPRLink :=
  match m.cap with
  | AiprCap.escaped => none
  | AiprCap.directive name params =>
      if name = ("aipr_header".data) then
        some { start_index := m.start_index
               end_index := m.end_index
               settings := match params with
                 | none => AIPRHeaderSettings.default
                 | some p => AIPRHeaderSettings.from_param_str (trimChars p)
               link_text := sliceStr s m.start_index m.end_index }
      else none

/-- Embedding of `find_aipr_links` composed with the skipping iterator
`AIPRLinkIter`: the raw scan filtered through `from_capture`. -/
def find_aipr_links (s : List Char) : List AIPRLink :=
  (rawAiprScan s).filterMap (AIPRLink.from_capture s)

/-- Helper for `validEsc`: scan with the previous character at hand and
require that every occurrence of `closer` is immediately preceded by a
backslash. -/
def validEscAux (closer : Char) : Char → List Char → Bool
  | _, [] => true
  | prev, c :: rest => (c != closer || prev == '\x5c') && validEscAux closer c rest

/-- Membership of a string in the language of the capture sub-pattern
`[^X]*(?:\\.[^X]*)*` (with `X` the closing delimiter): exactly the strings
in which every occurrence of the delimiter is consumed by the `\\.` escape
pair, i.e. is immediately preceded by a backslash. -/
def validEsc (closer : Char) : List Char → Bool
  | [] => true
  | c :: rest => c != closer && validEscAux closer c rest

/-- Candidate positions for the literal closing delimiter after the capture
group, in increasing order — the order a backtracking engine reaches them:
the maximal `[^X]*` run always stops at the next delimiter, the engine first
tries to close there, and only on failure of the remainder backtracks one
character to cross the delimiter through the `\\.` escape pair (possible
exactly when a backslash immediately precedes it). So the reachable close
positions are those whose preceding prefix lies in the capture language,
tried left to right. -/
def mdCloseCands (closer : Char) (t : List Char) : List Nat :=
  (List.range t.length).filter (fun m =>
      validEsc closer (t.take m) && t[m]? == some closer)

/-- Matcher for the markdown link regex
`\[([^\]]*(?:\\.[^\]]*)*)\]\(([^)]*(?:\\.[^)]*)*)\)` at the head of `t`.
The text group closes at the first reachable bracket-close candidate whose
remainder still matches `](url)`; for a fixed text the url group closes at
its first reachable paren-close candidate (the pattern ends right after, so
no remainder can reject it). Returns total length, group 1 (text) and
group 2 (url). -/
def matchMd (t : List Char) : Option (Nat × List Char × List Char) :=
  match t with
  | '[' :: t1 =>
      (mdCloseCands ']' t1).findSome? (fun m =>
        match t1.drop (m + 1) with
        | '(' :: t2 =>
            ((mdCloseCands ')' t2).head?).map (fun n =>
              (1 + m + 1 + 1 + n + 1, t1.take m, t2.take n))
        | _ => none)
  | _ => none

/-- The markdown matcher in the shape the scan loop expects. -/
def mdMatchAt (t : List Char) : Option (Nat × (List Char × List Char)) :=
  (matchMd t).map (fun r => (r.1, r.2))

/-- All raw matches of the markdown link regex over `s`, leftmost first,
non-overlapping. -/
def rawMdScan (s : List Char) : List (RawMatch (List Char × List Char)) :=
  scanAux mdMatchAt s (s.length + 1) 0

/-- A kept markdown link occurrence (`MDLink`). -/
structure MDLink where
  start_index : Nat
  end_index : Nat
  text : List Char
  url : List Char
  deriving DecidableEq, Repr

/-- Embedding of `MDLink::from_capture`: keep a match only when its url
group starts with `https://` or `http://`. -/
def MDLink.from_capture (m : RawMatch (List Char × List Char)) : Option MDLink :=
  if ("https://".data).isPrefixOf m.cap.2 || ("http://".data).isPrefixOf m.cap.2 then
    some { start_index := m.start_index
           end_index := m.end_index
           text := m.cap.1
           url := m.cap.2 }
  else none

/-- Embedding of `find_md_links` composed with the skipping iterator
`MDLinkIter`: the raw scan filtered through `from_capture`. -/
def find_md_links (s : List Char) : List MDLink :=
  (rawMdScan s).filterMap MDLink.from_capture

/-- Round half away from zero, the semantics of Rust `f32::round`, on exact
rationals. -/
def roundHalfAwayFromZero (q : ℚ) : ℤ :=
  if 0 ≤ q then ⌊q + 1 / 2⌋ else ⌈q - 1 / 2⌉

/-- Embedding of the reading-time computation
`(num_words as f32 / WORDS_PER_MINUTE as f32).round()` with
`WORDS_PER_MINUTE = 200`, using exact rational arithmetic in place of `f32`.
The two agree for every word count below `2 ^ 24`: both operands convert to
`f32` exactly, the correctly rounded quotient differs from the exact one by
less than `1 / 256`, and multiples of `1 / 200` are either exactly
representable half-integers or at least `1 / 200` away from the nearest
half-integer, so the rounding step cannot be perturbed. -/
def rt_in_mins (num_words : Nat) : ℤ :=
  roundHalfAwayFromZero ((num_words : ℚ) / 200)

/-- Rendering of `format!("{:.0} min", rt_in_mins)`: the integral value with
zero decimal places followed by ` min`. -/
def fmtMin (n : ℤ) : List Char :=
  (toString n).data ++ (" min".data)

/-- The data record handed to the header template by `AIPRLink::render`:
an optional colab-notebook path, the submit-issue flag, and the optional
reading-time string (present exactly when the `reading_time` setting is
on). -/
structure HeaderRenderData where
  colab_nb : Option (List Char)
  submit_issue : Bool
  reading_time : Option (List Char)
  deriving DecidableEq, Repr

/-- Construction of the header render data from the settings and the
externally supplied word count, following `AIPRLink::render`. -/
def headerRenderData (settings : AIPRHeaderSettings) (num_words : Nat) : HeaderRenderData :=
  { colab_nb := settings.colab
    submit_issue := settings.submit_issue
    reading_time :=
      if settings.reading_time then some (fmtMin (rt_in_mins num_words)) else none }

/-- Embedding of `AIPRLink::render`: build the data record and hand it to the
out-of-scope template collaborator `tmpl` (handlebars in the source), which
may fail with a template error. -/
def AIPRLink.render (tmpl : HeaderRenderData → Except (List Char) (List Char))
    (lnk : AIPRLink) (num_words : Nat) : Except (List Char) (List Char) :=
  tmpl (headerRenderData lnk.settings num_words)

/-- The data record handed to the link template by `MDLink::render`. -/
structure MDRenderData where
  text : List Char
  url : List Char
  deriving DecidableEq, Repr

/-- Embedding of `MDLink::render`, likewise through an injected template
collaborator. -/
def MDLink.render (tmpl : MDRenderData → Except (List Char) (List Char))
    (lnk : MDLink) : Except (List Char) (List Char) :=
  tmpl { text := lnk.text, url := lnk.url }

/-- The loop of `replace_all_aipr_links`, explicit in the cursor
(`previous_end_index`), the accumulator (`replaced`) and the remaining
links. The source calls `.unwrap()` on the render result (with a
`todo: better error handling` comment); a render failure therefore panics,
modelled as the `none` result: no string is produced at all. -/
def replaceAiprGo (render1 : AIPRLink → Except (List Char) (List Char)) (s : List Char) :
    List AIPRLink → Nat → List Char → Option (List Char)
  | [], previous_end_index, replaced => some (replaced ++ s.drop previous_end_index)
  | lnk :: rest, previous_end_index, replaced =>
      match render1 lnk with
      | Except.error _ => none
      | Except.ok new_content =>
          replaceAiprGo render1 s rest lnk.end_index
            (replaced ++ sliceStr s previous_end_index lnk.start_index ++ new_content)

/-- Embedding of `replace_all_aipr_links`. -/
def replace_all_aipr_links (tmpl : HeaderRenderData → Except (List Char) (List Char))
    (s : List Char) (num_words : Nat) : Option (List Char) :=
  replaceAiprGo (fun lnk => AIPRLink.render tmpl lnk num_words) s (find_aipr_links s) 0 []

/-- The loop of `replace_all_md_links`: for each link the source text from
the cursor to the link start is appended; if its last character is a
backslash or an exclamation mark the original matched text is appended
verbatim, otherwise the rendered text is appended (`.unwrap()` on failure,
modelled as `none` like above). -/
def replaceMdGo (render2 : MDLink → Except (List Char) (List Char)) (s : List Char) :
    List MDLink → Nat → List Char → Option (List Char)
  | [], previous_end_index, replaced => some (replaced ++ s.drop previous_end_index)
  | lnk :: rest, previous_end_index, replaced =>
      let pre := sliceStr s previous_end_index lnk.start_index
      if pre.getLast? = some '\x5c' ∨ pre.getLast? = some '!' then
        replaceMdGo render2 s rest lnk.end_index
          (replaced ++ pre ++ sliceStr s lnk.start_index lnk.end_index)
      else
        match render2 lnk with
        | Except.error _ => none
        | Except.ok new_content =>
            replaceMdGo render2 s rest lnk.end_index (replaced ++ pre ++ new_content)

/-- Embedding of `replace_all_md_links`. -/
def replace_all_md_links (tmpl2 : MDRenderData → Except (List Char) (List Char))
    (s : List Char) : Option (List Char) :=
  replaceMdGo (MDLink.render tmpl2) s (find_md_links s) 0 []

/-- Embedding of `replace_all`: the directive pass followed by the link pass
over its output. -/
def replace_all (tmpl : HeaderRenderData → Except (List Char) (List Char))
    (tmpl2 : MDRenderData → Except (List Char) (List Char))
    (s : List Char) (num_words : Nat) : Option (List Char) :=
  (replace_all_aipr_links tmpl s num_words).bind (replace_all_md_links tmpl2)

/-- Specification-side splice function, written after the words of the spec
(section 4.4): a cursor starts at offset 0; for each pair in order the
source slice from the cursor to the span start is appended, then the
rendered text, then the cursor advances to the span end; after the last
pair the remaining source tail is appended. -/
def spliceSpec (s : List Char) : Nat → List (Nat × Nat × List Char) → List Char
  | cursor, [] => s.drop cursor
  | cursor, item :: rest =>
      sliceStr s cursor item.1 ++ item.2.2 ++ spliceSpec s item.2.1 rest

theorem sliceStr_eq_drop_take (s : List Char) (a b : Nat) :
    sliceStr s a b = (s.drop a).take (b - a) := by
  simp [sliceStr, List.drop_take]

theorem sliceStr_append (s : List Char) {a b c : Nat} (hab : a ≤ b) (hbc : b ≤ c) :
    sliceStr s a c = sliceStr s a b ++ sliceStr s b c := by
  rw [sliceStr_eq_drop_take, sliceStr_eq_drop_take, sliceStr_eq_drop_take]
  have h1 : c - a = (b - a) + (c - b) := by omega
  rw [h1, List.take_add, List.drop_drop]
  have h2 : a + (b - a) = b := by omega
  rw [h2]

theorem drop_eq_sliceStr_append (s : List Char) {a b : Nat} (hab : a ≤ b) :
    s.drop a = sliceStr s a b ++ s.drop b := by
  rw [sliceStr_eq_drop_take]
  conv_lhs => rw [← List.take_append_drop (b - a) (s.drop a)]
  rw [List.drop_drop]
  congr 2
  omega

/-- Claim C2: on a document in which the directive scan and the link scan
each find zero matches, the transform returns the input unchanged (the
footer trailer is appended by the out-of-scope caller, not here). -/
theorem replace_all_zero_matches_id
    (tmpl : HeaderRenderData → Except (List Char) (List Char))
    (tmpl2 : MDRenderData → Except (List Char) (List Char))
    (s : List Char) (num_words : Nat)
    (h1 : find_aipr_links s = []) (h2 : find_md_links s = []) :
    replace_all tmpl tmpl2 s num_words = some s := by
  simp [replace_all, replace_all_aipr_links, replace_all_md_links, h1, h2, replaceAiprGo,
    replaceMdGo]

/-- Witness for C2 at a concrete marker-free document. -/
theorem replace_all_zero_matches_id_witness :
    replace_all (fun _ => Except.ok []) (fun _ => Except.ok [])
      ("Some random text without link...".data) 5
      = some ("Some random text without link...".data) :=
  replace_all_zero_matches_id _ _ _ _ (by decide) (by decide)

theorem splitOnce_eq_none_iff (sep : Char) (l : List Char) :
    splitOnce sep l = none ↔ sep ∉ l := by
  induction l with
  | nil => simp [splitOnce]
  | cons c rest ih =>
      by_cases h : c = sep
      · subst h
        simp [splitOnce]
      · simp only [splitOnce, if_neg h, Option.map_eq_none', ih, List.mem_cons]
        constructor
        · intro hn hor
          rcases hor with hc | hm
          · exact h hc.symm
          · exact hn hm
        · intro hn hm
          exact hn (Or.inr hm)

theorem filterMap_eq_filterMap_filter {α β : Type} (f : α → Option β) (g : α → Bool)
    (h : ∀ x, g x = false → f x = none) (l : List α) :
    l.filterMap f = (l.filter g).filterMap f := by
  induction l with
  | nil => rfl
  | cons x xs ih =>
      by_cases hx : g x
      · simp [List.filter_cons, hx, List.filterMap_cons, ih]
      · have hfx := h x (by simpa using hx)
        simp [List.filter_cons, hx, List.filterMap_cons, hfx, ih]

/-- Claim C3: the header settings built from a parameter string have `colab`
equal to the parsed map's raw value for key `colab` (absent when the key is
absent); `reading_time` and `submit_issue` are false exactly when their key
maps to the string `false`, so any other value, an absent key or an
unrecognized key leaves the default `true`; and comma-separated tokens
without `=` are dropped from the parse and contribute nothing. -/
theorem from_param_str_characterisation (p : List Char) :
    (AIPRHeaderSettings.from_param_str p).colab = getParam (_parse_param_str p) ("colab".data)
    ∧ ((AIPRHeaderSettings.from_param_str p).reading_time = false
        ↔ getParam (_parse_param_str p) ("reading_time".data) = some ("false".data))
    ∧ ((AIPRHeaderSettings.from_param_str p).submit_issue = false
        ↔ getParam (_parse_param_str p) ("submit_issue".data) = some ("false".data))
    ∧ _parse_param_str p
        = ((p.splitOn ',').filter (fun seg => seg.contains '=')).filterMap paramPair := by
  refine ⟨rfl, ?_, ?_, ?_⟩
  · simp [AIPRHeaderSettings.from_param_str]
  · simp [AIPRHeaderSettings.from_param_str]
  · refine filterMap_eq_filterMap_filter paramPair _ (fun seg hseg => ?_) _
    have : '=' ∉ seg := by
      intro hmem
      rw [List.contains] at hseg
      have h2 : List.elem '=' seg = true := List.elem_iff.mpr hmem
      rw [hseg] at h2
      cases h2
    simp [paramPair, (splitOnce_eq_none_iff '=' seg).2 this]

/-- Witness for C3 on a concrete parameter string exercising a no-`=` token,
an unrecognized key, and a `false` value. -/
theorem from_param_str_characterisation_witness :
    (AIPRHeaderSettings.from_param_str ("oops,foo=bar,reading_time=false".data)).colab
        = getParam (_parse_param_str ("oops,foo=bar,reading_time=false".data)) ("colab".data)
    ∧ ((AIPRHeaderSettings.from_param_str ("oops,foo=bar,reading_time=false".data)).reading_time
          = false
        ↔ getParam (_parse_param_str ("oops,foo=bar,reading_time=false".data))
            ("reading_time".data) = some ("false".data))
    ∧ ((AIPRHeaderSettings.from_param_str ("oops,foo=bar,reading_time=false".data)).submit_issue
          = false
        ↔ getParam (_parse_param_str ("oops,foo=bar,reading_time=false".data))
            ("submit_issue".data) = some ("false".data))
    ∧ _parse_param_str ("oops,foo=bar,reading_time=false".data)
        = ((("oops,foo=bar,reading_time=false".data).splitOn ',').filter
            (fun seg => seg.contains '=')).filterMap paramPair :=
  from_param_str_characterisation _

theorem splitOnce_of_not_mem {sep : Char} {k : List Char} (hk : sep ∉ k) (v : List Char) :
    splitOnce sep (k ++ sep :: v) = some (k, v) := by
  induction k with
  | nil => simp [splitOnce]
  | cons c rest ih =>
      have hc : ¬c = sep := by
        intro h
        exact hk (by simp [h])
      have hr : sep ∉ rest := fun h => hk (List.mem_cons_of_mem _ h)
      simp [splitOnce, hc, ih hr]

theorem splitOn_append_sep (a b : List Char) :
    (a ++ ',' :: b).splitOn ',' = a.splitOn ',' ++ b.splitOn ',' := by
  induction a with
  | nil => simp [List.splitOn, List.splitOnP_cons]
  | cons c rest ih =>
      by_cases hc : c = ','
      · subst hc
        simp only [List.cons_append, List.splitOn, List.splitOnP_cons] at ih ⊢
        simp [ih]
      · have hb : ¬((c == ',') = true) := by simp [hc]
        simp only [List.cons_append, List.splitOn, List.splitOnP_cons, if_neg hb] at ih ⊢
        rw [ih]
        rcases h0 : rest.splitOnP (fun x => x == ',') with _ | ⟨h1, t1⟩
        · exact absurd h0 (List.splitOnP_ne_nil _ _)
        · simp

theorem getParam_append (A B : List (List Char × List Char)) (k : List Char) :
    getParam (A ++ B) k = (getParam B k).or (getParam A k) := by
  simp only [getParam, List.filter_append, List.getLast?_append]
  rcases h : (B.filter (fun p => p.1 = k)).getLast? with _ | x <;> simp [h]

/-- Claim C10: each `key=value` token is trimmed on both sides of the first
`=` before entering the settings map, so a token such as
`reading_time = false` (spaces around `=` and the value) also flips the
boolean; and a key occurring more than once takes its last occurrence's
value. -/
theorem param_str_trim_last_wins (k v p : List Char)
    (hk : ',' ∉ k) (hv : ',' ∉ v) (hke : '=' ∉ k) :
    _parse_param_str (k ++ '=' :: v) = [(trimChars k, trimChars v)]
    ∧ getParam (_parse_param_str (p ++ ',' :: (k ++ '=' :: v))) (trimChars k)
        = some (trimChars v)
    ∧ (AIPRHeaderSettings.from_param_str ("reading_time = false".data)).reading_time = false := by
  have hsingle : _parse_param_str (k ++ '=' :: v) = [(trimChars k, trimChars v)] := by
    have hno : ∀ x ∈ (k ++ '=' :: v), ¬((x == ',') = true) := by
      intro x hx
      simp only [List.mem_append, List.mem_cons] at hx
      rcases hx with hx | hx | hx
      · simp
        intro h
        exact hk (h ▸ hx)
      · simp [hx]
      · simp
        intro h
        exact hv (h ▸ hx)
    rw [_parse_param_str, List.splitOn, List.splitOnP_eq_single _ _ hno]
    simp [List.filterMap, paramPair, splitOnce_of_not_mem hke]
  refine ⟨hsingle, ?_, by decide⟩
  rw [_parse_param_str, splitOn_append_sep, List.filterMap_append]
  rw [show ((k ++ '=' :: v).splitOn ',').filterMap paramPair
        = _parse_param_str (k ++ '=' :: v) from rfl, hsingle, getParam_append]
  simp [getParam]

/-- Witness for C10 at concrete key, value and preceding parameters with a
duplicated key. -/
theorem param_str_trim_last_wins_witness :
    (',' ∉ (" reading_time ".data) ∧ ',' ∉ (" false ".data) ∧ '=' ∉ (" reading_time ".data))
    ∧ (_parse_param_str ((" reading_time ".data) ++ '=' :: (" false ".data))
        = [(trimChars (" reading_time ".data), trimChars (" false ".data))]
      ∧ getParam (_parse_param_str (("reading_time=truish".data)
            ++ ',' :: ((" reading_time ".data) ++ '=' :: (" false ".data))))
          (trimChars (" reading_time ".data)) = some (trimChars (" false ".data))
      ∧ (AIPRHeaderSettings.from_param_str ("reading_time = false".data)).reading_time
          = false) :=
  ⟨⟨by decide, by decide, by decide⟩,
    param_str_trim_last_wins (" reading_time ".data) (" false ".data)
      ("reading_time=truish".data) (by decide) (by decide) (by decide)⟩

theorem rt_in_mins_eq_nat_div (w : Nat) :
    rt_in_mins w = (((w + 100) / 200 : Nat) : ℤ) := by
  rw [rt_in_mins, roundHalfAwayFromZero, if_pos (by positivity)]
  have h : ((w : ℚ) / 200 + 1 / 2) = (((w + 100 : Nat) : ℤ) : ℚ) / ((200 : Nat) : ℚ) := by
    push_cast
    ring
  rw [h, Rat.floor_intCast_div_natCast]
  exact (Int.natCast_ediv _ _).symm

/-- Claim C7: with `reading_time` enabled and word count `w` the render data
contains the reading-time string built from
`round-half-away-from-zero (w / 200)` (equal to the closed form
`(w + 100) / 200` in natural division), with `w = 0` giving `0 min` rather
than being suppressed; with `reading_time` disabled no reading-time entry is
put in the render data at all, whatever `w` is. -/
theorem reading_time_render_spec (settings : AIPRHeaderSettings) (w : Nat) :
    (settings.reading_time = true →
        (headerRenderData settings w).reading_time = some (fmtMin (rt_in_mins w))
        ∧ rt_in_mins w = (((w + 100) / 200 : Nat) : ℤ))
    ∧ (settings.reading_time = false → (headerRenderData settings w).reading_time = none)
    ∧ rt_in_mins 0 = 0 ∧ fmtMin 0 = ("0 min".data) := by
  refine ⟨fun h => ⟨?_, rt_in_mins_eq_nat_div w⟩, fun h => ?_,
    by rw [rt_in_mins_eq_nat_div]; rfl, by decide⟩
  · simp [headerRenderData, h]
  · simp [headerRenderData, h]

/-- Witness for C7 at the word counts of the source's unit tests. -/
theorem reading_time_render_spec_witness :
    ((AIPRHeaderSettings.default.reading_time = true →
        (headerRenderData AIPRHeaderSettings.default 201).reading_time
            = some (fmtMin (rt_in_mins 201))
        ∧ rt_in_mins 201 = (((201 + 100) / 200 : Nat) : ℤ))
      ∧ (AIPRHeaderSettings.default.reading_time = false →
          (headerRenderData AIPRHeaderSettings.default 201).reading_time = none)
      ∧ rt_in_mins 0 = 0 ∧ fmtMin 0 = ("0 min".data))
    ∧ (headerRenderData (AIPRHeaderSettings.from_param_str ("reading_time=false".data))
        907).reading_time = none :=
  ⟨reading_time_render_spec AIPRHeaderSettings.default 201,
    (reading_time_render_spec (AIPRHeaderSettings.from_param_str ("reading_time=false".data))
        907).2.1 (by decide)⟩

/-- Claim C8 (divergence witness): on a document with one directive match
whose template render fails, the source calls `.unwrap()` on the render
result (`src/ai_pocket_reference.rs:72`, marked `todo: better error
handling`) and panics; the transform therefore produces no output at all
(`none` in this embedding) instead of propagating an error value to the
caller as the specification demands. No partial output is produced and the
failing match is not skipped, but no `Result`-style error reaches the
caller either. -/
theorem render_failure_panics :
    replace_all_aipr_links (fun _ => Except.error ("template error".data))
        ("\x7b\x7b #aipr_header \x7d\x7d".data) 201 = none
    ∧ find_aipr_links ("\x7b\x7b #aipr_header \x7d\x7d".data) ≠ [] := by
  constructor
  · decide
  · decide

/-- Counterexample to claim C5 at an explicit input: in
`\x5c\x7b\x7b#x\x7d\x7d \x7b\x7b #aipr_header \x7d\x7d` the escaped-form
alternative matches greedily up to the last close marker of the line, so the
single raw match spans the whole string, the well-formed directive after the
escaped marker is swallowed, no replaceable link is found, and the directive
is left literal instead of being replaced — although the same directive text
alone is recognized. -/
theorem escaped_match_lazy_cex :
    (rawAiprScan ("\x5c\x7b\x7b#x\x7d\x7d \x7b\x7b #aipr_header \x7d\x7d".data)).map
        (fun m => (m.start_index, m.end_index)) = [(0, 26)]
    ∧ find_aipr_links ("\x5c\x7b\x7b#x\x7d\x7d \x7b\x7b #aipr_header \x7d\x7d".data) = []
    ∧ replace_all_aipr_links (fun _ => Except.ok ("HDR".data))
        ("\x5c\x7b\x7b#x\x7d\x7d \x7b\x7b #aipr_header \x7d\x7d".data) 0
      = some ("\x5c\x7b\x7b#x\x7d\x7d \x7b\x7b #aipr_header \x7d\x7d".data)
    ∧ find_aipr_links ("\x7b\x7b #aipr_header \x7d\x7d".data) ≠ [] := by
  refine ⟨by decide, by decide, by decide, by decide⟩

/-- Claim C5 as amended: the escaped-form match is greedy, extending from
the backslash to the last close marker reachable on the same line (the
dot-star cannot cross a newline), so a well-formed directive after an
escaped marker on the same line is swallowed into the escaped match and
left literal, while a directive on a later line is still recognized and
replaced with only the escaped marker left literal. -/
theorem escaped_match_greedy_same_line :
    (rawAiprScan ("\x5c\x7b\x7b#x\x7d\x7d \x7b\x7b #aipr_header \x7d\x7d".data)).map
        (fun m => (m.start_index, m.end_index, m.cap)) = [(0, 26, AiprCap.escaped)]
    ∧ replace_all_aipr_links (fun _ => Except.ok ("HDR".data))
        ("\x5c\x7b\x7b#x\x7d\x7d \x7b\x7b #aipr_header \x7d\x7d".data) 0
      = some ("\x5c\x7b\x7b#x\x7d\x7d \x7b\x7b #aipr_header \x7d\x7d".data)
    ∧ (rawAiprScan ("\x5c\x7b\x7b#x\x7d\x7d\n\x7b\x7b #aipr_header \x7d\x7d".data)).map
        (fun m => (m.start_index, m.end_index, m.cap))
      = [(0, 7, AiprCap.escaped), (8, 26, AiprCap.directive ("aipr_header".data) none)]
    ∧ replace_all_aipr_links (fun _ => Except.ok ("HDR".data))
        ("\x5c\x7b\x7b#x\x7d\x7d\n\x7b\x7b #aipr_header \x7d\x7d".data) 0
      = some ("\x5c\x7b\x7b#x\x7d\x7d\nHDR".data) := by
  refine ⟨by decide, by decide, by decide, by decide⟩

theorem matchEscA_bounds {t : List Char} {len : Nat} (h : matchEscA t = some len) :
    1 ≤ len ∧ len ≤ t.length := by
  unfold matchEscA at h
  split at h
  case _ rest =>
    rcases Option.map_eq_some'.1 h with ⟨k, hk, hlen⟩
    have hmem := List.mem_of_getLast?_eq_some hk
    rw [List.mem_filter] at hmem
    rcases hmem with ⟨-, hpred⟩
    rw [Bool.and_eq_true, decide_eq_true_eq] at hpred
    have hlen2 : ((rest.drop k).take 2).length = 2 := by rw [hpred.2]; rfl
    simp only [List.length_take, List.length_drop] at hlen2
    simp only [List.length_cons]
    omega
  case _ => exact absurd h (by simp)

theorem matchDirB_bounds {t : List Char} {len : Nat} {nm : List Char} {ps : Option (List Char)}
    (h : matchDirB t = some (len, nm, ps)) : 1 ≤ len ∧ len ≤ t.length := by
  unfold matchDirB at h
  split at h
  case _ rest =>
    simp only [] at h
    split at h
    case _ r2 heq1 =>
      split at h
      case isTrue => exact absurd h (by simp)
      case isFalse hname =>
        split at h
        case isTrue => exact absurd h (by simp)
        case isFalse hws2 =>
          split at h
          case _ tail heq2 =>
            rw [Option.some_inj, Prod.mk.injEq, Prod.mk.injEq] at h
            rcases h with ⟨h1, -, -⟩
            have hlen1 := congrArg List.length heq1
            have hlen2 := congrArg List.length heq2
            simp only [List.length_drop, List.length_cons] at hlen1 hlen2
            simp only [List.length_cons]
            omega
          case _ => exact absurd h (by simp)
    case _ => exact absurd h (by simp)
  case _ => exact absurd h (by simp)

theorem mem_of_head?_eq_some {α : Type} {l : List α} {a : α} (h : l.head? = some a) : a ∈ l := by
  cases l with
  | nil => cases h
  | cons x xs =>
      rw [List.head?_cons, Option.some_inj] at h
      exact h ▸ List.mem_cons_self x xs

theorem mem_mdCloseCands {closer : Char} {t : List Char} {m : Nat}
    (h : m ∈ mdCloseCands closer t) : m < t.length ∧ t[m]? = some closer := by
  unfold mdCloseCands at h
  rw [List.mem_filter, List.mem_range] at h
  rcases h with ⟨h1, h2⟩
  rw [Bool.and_eq_true] at h2
  exact ⟨h1, eq_of_beq h2.2⟩

theorem mdMatchAt_spec {t : List Char} {len : Nat} {cap : List Char × List Char}
    (h : mdMatchAt t = some (len, cap)) :
    (1 ≤ len ∧ len ≤ t.length) ∧ t[len - 1]? = some ')' := by
  rcases Option.map_eq_some'.1 h with ⟨r, hr, hre⟩
  rw [Prod.mk.injEq] at hre
  rcases hre with ⟨rfl, rfl⟩
  unfold matchMd at hr
  split at hr
  case _ t1 =>
    rcases List.exists_of_findSome?_eq_some hr with ⟨m, hm, hmeq⟩
    rcases mem_mdCloseCands hm with ⟨hm1, -⟩
    split at hmeq
    case _ t2 heq =>
      rcases Option.map_eq_some'.1 hmeq with ⟨n, hn, hneq⟩
      rcases mem_mdCloseCands (mem_of_head?_eq_some hn) with ⟨hn1, hn2⟩
      have h1 := congrArg (fun r => r.1) hneq
      simp only [] at h1
      have hlen1 := congrArg List.length heq
      simp only [List.length_drop, List.length_cons] at hlen1
      constructor
      · simp only [List.length_cons]
        omega
      · have hidx : ('[' :: t1)[r.1 - 1]? = t1[m + 1 + (n + 1)]? := by
          have he : r.1 - 1 = (m + 1 + (n + 1)) + 1 := by omega
          rw [he, List.getElem?_cons_succ]
        rw [hidx, ← List.getElem?_drop, heq, List.getElem?_cons_succ, hn2]
    case _ => exact absurd hmeq (by simp)
  case _ => exact absurd hr (by simp)

/-- Well-formedness of a span list produced by one scan starting at position
`p` over a text of length `slen`: spans are nonempty, within bounds, and
each one ends no later than the next begins. -/
def SpanChain (slen : Nat) : Nat → List (Nat × Nat) → Prop
  | _, [] => True
  | p, sp :: rest => p ≤ sp.1 ∧ sp.1 < sp.2 ∧ sp.2 ≤ slen ∧ SpanChain slen sp.2 rest

theorem SpanChain.mono {slen : Nat} :
    ∀ {sps : List (Nat × Nat)} {p q : Nat}, p ≤ q → SpanChain slen q sps → SpanChain slen p sps
  | [], _, _, _, _ => trivial
  | _ :: _, _, _, hpq, h => ⟨le_trans hpq h.1, h.2.1, h.2.2.1, h.2.2.2⟩

theorem spanChain_forall {slen : Nat} :
    ∀ {sps : List (Nat × Nat)} {p : Nat}, SpanChain slen p sps →
      ∀ sp ∈ sps, p ≤ sp.1 ∧ sp.1 < sp.2 ∧ sp.2 ≤ slen := by
  intro sps
  induction sps with
  | nil => intro p _ sp hsp; cases hsp
  | cons x rest ih =>
      intro p h sp hsp
      rw [List.mem_cons] at hsp
      rcases hsp with rfl | hsp
      · exact ⟨h.1, h.2.1, h.2.2.1⟩
      · rcases ih h.2.2.2 sp hsp with ⟨h1, h2, h3⟩
        have hx := h.1
        have hy := h.2.1
        exact ⟨by omega, h2, h3⟩

theorem spanChain_chain' {slen : Nat} :
    ∀ {sps : List (Nat × Nat)} {p : Nat}, SpanChain slen p sps →
      List.Chain' (fun a b => a.2 ≤ b.1) sps := by
  intro sps
  induction sps with
  | nil => intro p _; exact List.chain'_nil
  | cons x rest ih =>
      intro p h
      refine List.chain'_cons'.2 ⟨?_, ih h.2.2.2⟩
      intro y hy
      have := spanChain_forall h.2.2.2 y (mem_of_head?_eq_some hy)
      exact this.1

theorem findFrom_spec {α : Type} {matchAt : List Char → Option (Nat × α)} {s : List Char}
    {p st len : Nat} {a : α} (h : findFrom matchAt s p = some (st, len, a)) :
    p ≤ st ∧ matchAt (s.drop st) = some (len, a) := by
  unfold findFrom at h
  rcases List.exists_of_findSome?_eq_some h with ⟨d, hd, hde⟩
  rcases Option.map_eq_some'.1 hde with ⟨r, hr, hre⟩
  rcases r with ⟨rlen, ra⟩
  rw [Prod.mk.injEq, Prod.mk.injEq] at hre
  rcases hre with ⟨h1, h2, h3⟩
  subst h1
  subst h2
  subst h3
  exact ⟨Nat.le_add_right _ _, hr⟩

theorem scanAux_chain {α : Type} {matchAt : List Char → Option (Nat × α)} {s : List Char}
    (hp : ∀ t len a, matchAt t = some (len, a) → 1 ≤ len ∧ len ≤ t.length) :
    ∀ (fuel p : Nat),
      SpanChain s.length p ((scanAux matchAt s fuel p).map (fun m => (m.start_index, m.end_index))) := by
  intro fuel
  induction fuel with
  | zero => intro p; exact trivial
  | succ fuel ih =>
      intro p
      unfold scanAux
      split
      · exact trivial
      case _ st len a hfind =>
        rcases findFrom_spec hfind with ⟨hpst, hmatch⟩
        rcases hp _ _ _ hmatch with ⟨hl1, hl2⟩
        rw [List.length_drop] at hl2
        exact ⟨hpst, show st < st + len by omega, show st + len ≤ s.length by omega,
          ih (st + len)⟩

theorem scanAux_matchAt {α : Type} {matchAt : List Char → Option (Nat × α)} {s : List Char} :
    ∀ (fuel p : Nat), ∀ m ∈ scanAux matchAt s fuel p,
      matchAt (s.drop m.start_index) = some (m.end_index - m.start_index, m.cap) := by
  intro fuel
  induction fuel with
  | zero => intro p m hm; cases hm
  | succ fuel ih =>
      intro p m hm
      unfold scanAux at hm
      split at hm
      · cases hm
      case _ st len a hfind =>
        rcases findFrom_spec hfind with ⟨-, hmatch⟩
        rw [List.mem_cons] at hm
        rcases hm with rfl | hm
        · simpa [Nat.add_sub_cancel_left] using hmatch
        · exact ih (st + len) m hm

theorem spanChain_filterMap {α β : Type} (f : α → Option β)
    (sa : α → Nat × Nat) (sb : β → Nat × Nat)
    (hf : ∀ x y, f x = some y → sb y = sa x) {slen : Nat} :
    ∀ {l : List α} {p : Nat},
      SpanChain slen p (l.map sa) → SpanChain slen p ((l.filterMap f).map sb) := by
  intro l
  induction l with
  | nil => intro p _; exact trivial
  | cons x xs ih =>
      intro p h
      rw [List.filterMap_cons]
      rcases hfx : f x with _ | y
      · exact SpanChain.mono (le_trans h.1 (le_of_lt h.2.1)) (ih h.2.2.2)
      · exact ⟨(hf x y hfx) ▸ h.1, (hf x y hfx) ▸ h.2.1, (hf x y hfx) ▸ h.2.2.1,
          (hf x y hfx) ▸ ih h.2.2.2⟩

theorem aiprMatchAt_bounds :
    ∀ (t : List Char) (len : Nat) (a : AiprCap),
      aiprMatchAt t = some (len, a) → 1 ≤ len ∧ len ≤ t.length := by
  intro t len a h
  unfold aiprMatchAt at h
  split at h
  case _ l hesc =>
      rw [Option.some_inj, Prod.mk.injEq] at h
      exact h.1 ▸ matchEscA_bounds hesc
  case _ hesc =>
      rcases Option.map_eq_some'.1 h with ⟨r, hr, hre⟩
      rcases r with ⟨rl, rn, rp⟩
      rw [Prod.mk.injEq] at hre
      exact hre.1 ▸ matchDirB_bounds hr

theorem mdMatchAt_bounds :
    ∀ (t : List Char) (len : Nat) (a : List Char × List Char),
      mdMatchAt t = some (len, a) → 1 ≤ len ∧ len ≤ t.length :=
  fun _ _ _ h => (mdMatchAt_spec h).1

theorem from_capture_span {s : List Char} (m : RawMatch AiprCap) (l : AIPRLink)
    (h : AIPRLink.from_capture s m = some l) :
    (l.start_index, l.end_index) = (m.start_index, m.end_index) := by
  unfold AIPRLink.from_capture at h
  split at h
  · cases h
  case _ name params =>
    split at h
    · rw [Option.some_inj] at h
      rw [← h]
    · cases h

theorem md_from_capture_span (m : RawMatch (List Char × List Char)) (l : MDLink)
    (h : MDLink.from_capture m = some l) :
    (l.start_index, l.end_index) = (m.start_index, m.end_index) := by
  unfold MDLink.from_capture at h
  split at h
  · rw [Option.some_inj] at h
    rw [← h]
  · cases h

theorem find_aipr_links_chain (s : List Char) :
    SpanChain s.length 0 ((find_aipr_links s).map (fun l => (l.start_index, l.end_index))) :=
  spanChain_filterMap (AIPRLink.from_capture s) _ _ (from_capture_span)
    (scanAux_chain aiprMatchAt_bounds _ 0)

theorem find_md_links_chain (s : List Char) :
    SpanChain s.length 0 ((find_md_links s).map (fun l => (l.start_index, l.end_index))) :=
  spanChain_filterMap MDLink.from_capture _ _ (md_from_capture_span)
    (scanAux_chain mdMatchAt_bounds _ 0)

/-- Claim C9: in the match sequences produced by the directive scan and the
link scan every match has `start_index < end_index`, and each match ends no
later than the next begins, so matches are non-overlapping with
monotonically non-decreasing offsets. -/
theorem scan_offsets_invariant (s : List Char) :
    (∀ l ∈ find_aipr_links s, l.start_index < l.end_index)
    ∧ List.Chain' (fun a b => a.end_index ≤ b.start_index) (find_aipr_links s)
    ∧ (∀ l ∈ find_md_links s, l.start_index < l.end_index)
    ∧ List.Chain' (fun a b => a.end_index ≤ b.start_index) (find_md_links s) := by
  refine ⟨?_, ?_, ?_, ?_⟩
  · intro l hl
    exact (spanChain_forall (find_aipr_links_chain s) (l.start_index, l.end_index)
      (List.mem_map_of_mem _ hl)).2.1
  · have h := spanChain_chain' (find_aipr_links_chain s)
    rw [List.chain'_map] at h
    exact h
  · intro l hl
    exact (spanChain_forall (find_md_links_chain s) (l.start_index, l.end_index)
      (List.mem_map_of_mem _ hl)).2.1
  · have h := spanChain_chain' (find_md_links_chain s)
    rw [List.chain'_map] at h
    exact h

/-- Witness for C9 at a concrete document holding both kinds of markers. -/
theorem scan_offsets_invariant_witness :
    (∀ l ∈ find_aipr_links ("\x7b\x7b #aipr_header \x7d\x7d [a](https://b.io)".data),
        l.start_index < l.end_index)
    ∧ List.Chain' (fun a b => a.end_index ≤ b.start_index)
        (find_aipr_links ("\x7b\x7b #aipr_header \x7d\x7d [a](https://b.io)".data))
    ∧ (∀ l ∈ find_md_links ("\x7b\x7b #aipr_header \x7d\x7d [a](https://b.io)".data),
        l.start_index < l.end_index)
    ∧ List.Chain' (fun a b => a.end_index ≤ b.start_index)
        (find_md_links ("\x7b\x7b #aipr_header \x7d\x7d [a](https://b.io)".data)) :=
  scan_offsets_invariant _

/-- Per-match output text of the link pass, threading the cursor exactly as
`replace_all_md_links` does: the verbatim original slice for an escaped link
(previous text ending in a backslash or an exclamation mark), the rendered
text otherwise. -/
def mdItems (g : MDLink → List Char) (s : List Char) :
    Nat → List MDLink → List (Nat × Nat × List Char)
  | _, [] => []
  | previous_end_index, lnk :: rest =>
      let pre := sliceStr s previous_end_index lnk.start_index
      (lnk.start_index, lnk.end_index,
        if pre.getLast? = some '\x5c' ∨ pre.getLast? = some '!' then
          sliceStr s lnk.start_index lnk.end_index
        else g lnk) :: mdItems g s lnk.end_index rest

theorem replaceAiprGo_eq_spliceSpec (render1 : AIPRLink → Except (List Char) (List Char))
    (s : List Char) (g : AIPRLink → List Char) :
    ∀ (ms : List AIPRLink) (prev : Nat) (acc : List Char),
      (∀ l ∈ ms, render1 l = Except.ok (g l)) →
      replaceAiprGo render1 s ms prev acc
        = some (acc ++ spliceSpec s prev
            (ms.map (fun l => (l.start_index, l.end_index, g l)))) := by
  intro ms
  induction ms with
  | nil => intro prev acc h; simp [replaceAiprGo, spliceSpec]
  | cons l rest ih =>
      intro prev acc h
      have hl := h l (List.mem_cons_self _ _)
      simp only [replaceAiprGo, hl]
      rw [ih l.end_index _ (fun x hx => h x (List.mem_cons_of_mem _ hx))]
      simp [spliceSpec]

theorem replaceMdGo_eq_spliceSpec (render2 : MDLink → Except (List Char) (List Char))
    (s : List Char) (g : MDLink → List Char) :
    ∀ (ms : List MDLink) (prev : Nat) (acc : List Char),
      (∀ l ∈ ms, render2 l = Except.ok (g l)) →
      replaceMdGo render2 s ms prev acc
        = some (acc ++ spliceSpec s prev (mdItems g s prev ms)) := by
  intro ms
  induction ms with
  | nil => intro prev acc h; simp [replaceMdGo, spliceSpec, mdItems]
  | cons l rest ih =>
      intro prev acc h
      have hl := h l (List.mem_cons_self _ _)
      have hrest := fun x hx => h x (List.mem_cons_of_mem _ hx)
      simp only [replaceMdGo, mdItems, hl]
      split
      · rw [ih l.end_index _ hrest]
        simp [spliceSpec, List.append_assoc]
      · rw [ih l.end_index _ hrest]
        simp [spliceSpec, List.append_assoc]

/-- Claim C1: each replacement pass returns exactly the cursor-splice of the
source with its scan's match sequence — for each match in order the source
slice from the cursor to the match start, then the text output for that
match (for the link pass the verbatim original when the match is escaped),
cursor moved to the match end, and the remaining tail appended verbatim —
so text outside matched spans is unchanged and in original order. -/
theorem replace_all_splice_spec
    (tmpl : HeaderRenderData → Except (List Char) (List Char))
    (tmpl2 : MDRenderData → Except (List Char) (List Char))
    (s s2 : List Char) (num_words : Nat) (g1 : AIPRLink → List Char) (g2 : MDLink → List Char)
    (h1 : ∀ l ∈ find_aipr_links s, AIPRLink.render tmpl l num_words = Except.ok (g1 l))
    (h2 : ∀ l ∈ find_md_links s2, MDLink.render tmpl2 l = Except.ok (g2 l)) :
    replace_all_aipr_links tmpl s num_words
      = some (spliceSpec s 0
          ((find_aipr_links s).map (fun l => (l.start_index, l.end_index, g1 l))))
    ∧ replace_all_md_links tmpl2 s2
      = some (spliceSpec s2 0 (mdItems g2 s2 0 (find_md_links s2))) := by
  constructor
  · rw [replace_all_aipr_links, replaceAiprGo_eq_spliceSpec _ _ g1 _ 0 [] h1]
    simp
  · rw [replace_all_md_links, replaceMdGo_eq_spliceSpec _ _ g2 _ 0 [] h2]
    simp

/-- Witness for C1 at a concrete document for each pass. -/
theorem replace_all_splice_spec_witness :
    replace_all_aipr_links (fun _ => Except.ok ("H".data))
        ("\x7b\x7b #aipr_header \x7d\x7d x".data) 3
      = some (spliceSpec ("\x7b\x7b #aipr_header \x7d\x7d x".data) 0
          ((find_aipr_links ("\x7b\x7b #aipr_header \x7d\x7d x".data)).map
            (fun l => (l.start_index, l.end_index, (fun _ => ("H".data)) l))))
    ∧ replace_all_md_links (fun _ => Except.ok ("L".data)) ("y [a](https://b.io) z".data)
      = some (spliceSpec ("y [a](https://b.io) z".data) 0
          (mdItems (fun _ => ("L".data)) ("y [a](https://b.io) z".data) 0
            (find_md_links ("y [a](https://b.io) z".data)))) :=
  replace_all_splice_spec _ _ _ _ 3 _ _ (fun _ _ => rfl) (fun _ _ => rfl)

theorem splice_gap (s : List Char) {a b : Nat} :
    ∀ (items : List (Nat × Nat × List Char)) (cursor : Nat),
      SpanChain s.length cursor (items.map (fun it => (it.1, it.2.1))) →
      cursor ≤ a → a ≤ b → b ≤ s.length →
      (∀ it ∈ items, it.2.1 ≤ a ∨ b ≤ it.1) →
      ∃ u v, spliceSpec s cursor items = u ++ sliceStr s a b ++ v := by
  intro items
  induction items with
  | nil =>
      intro cursor _ hca hab hbl _
      refine ⟨sliceStr s cursor a, s.drop b, ?_⟩
      simp only [spliceSpec]
      rw [drop_eq_sliceStr_append s hca, drop_eq_sliceStr_append s hab, List.append_assoc]
  | cons it rest ih =>
      intro cursor hchain hca hab hbl havoid
      rcases havoid it (List.mem_cons_self _ _) with hend | hstart
      · rcases ih it.2.1 hchain.2.2.2 hend hab hbl
            (fun x hx => havoid x (List.mem_cons_of_mem _ hx)) with ⟨u, v, huv⟩
        refine ⟨sliceStr s cursor it.1 ++ it.2.2 ++ u, v, ?_⟩
        simp only [spliceSpec]
        rw [huv]
        simp [List.append_assoc]
      · have hc1 : cursor ≤ it.1 := hchain.1
        refine ⟨sliceStr s cursor a,
          sliceStr s b it.1 ++ it.2.2 ++ spliceSpec s it.2.1 rest, ?_⟩
        simp only [spliceSpec]
        rw [sliceStr_append s hca (le_trans hab hstart), sliceStr_append s hab hstart]
        simp [List.append_assoc]

theorem item_in_splice (s : List Char) :
    ∀ (items : List (Nat × Nat × List Char)) (cursor : Nat) (it : Nat × Nat × List Char),
      it ∈ items → ∃ u v, spliceSpec s cursor items = u ++ it.2.2 ++ v := by
  intro items
  induction items with
  | nil => intro cursor it hit; cases hit
  | cons x rest ih =>
      intro cursor it hit
      rw [List.mem_cons] at hit
      rcases hit with rfl | hit
      · exact ⟨sliceStr s cursor it.1, spliceSpec s it.2.1 rest, by simp [spliceSpec]⟩
      · rcases ih x.2.1 it hit with ⟨u, v, huv⟩
        refine ⟨sliceStr s cursor x.1 ++ x.2.2 ++ u, v, ?_⟩
        simp only [spliceSpec]
        rw [huv]
        simp [List.append_assoc]

theorem filterMap_avoid {α β : Type} (f : α → Option β) (sa : α → Nat × Nat)
    (sb : β → Nat × Nat) (hf : ∀ x y, f x = some y → sb y = sa x) {slen : Nat} :
    ∀ (l : List α) (p : Nat), SpanChain slen p (l.map sa) →
      ∀ (m : α), m ∈ l → f m = none →
      ∀ b ∈ l.filterMap f, (sb b).2 ≤ (sa m).1 ∨ (sa m).2 ≤ (sb b).1 := by
  intro l
  induction l with
  | nil => intro p _ m hm; cases hm
  | cons x xs ih =>
      intro p hchain m hm hmnone b hb
      rw [List.filterMap_cons] at hb
      rw [List.mem_cons] at hm
      rcases hm with rfl | hm
      · rw [hmnone] at hb
        rcases List.mem_filterMap.1 hb with ⟨x', hx', hfx'⟩
        right
        rw [hf x' b hfx']
        exact (spanChain_forall hchain.2.2.2 (sa x') (List.mem_map_of_mem _ hx')).1
      · rcases hfx : f x with _ | y
        · rw [hfx] at hb
          exact ih (sa x).2 hchain.2.2.2 m hm hmnone b hb
        · rw [hfx] at hb
          rcases List.mem_cons.1 hb with rfl | hb
          · left
            rw [hf x b hfx]
            exact (spanChain_forall hchain.2.2.2 (sa m) (List.mem_map_of_mem _ hm)).1
          · exact ih (sa x).2 hchain.2.2.2 m hm hmnone b hb

theorem sliceStr_getLast? (s : List Char) {a b : Nat} (hab : a < b) (hb : b ≤ s.length) :
    (sliceStr s a b).getLast? = s[b - 1]? := by
  rw [sliceStr_eq_drop_take, List.getLast?_eq_getElem?]
  have hlen : ((s.drop a).take (b - a)).length = b - a := by
    simp only [List.length_take, List.length_drop]
    omega
  rw [hlen, List.getElem?_take_of_lt (by omega), List.getElem?_drop]
  congr 1
  omega

theorem find_md_links_end_char (s : List Char) :
    ∀ l ∈ find_md_links s, s[l.end_index - 1]? = some ')' := by
  intro l hl
  rcases List.mem_filterMap.1 hl with ⟨m, hm, hfm⟩
  have hmatch := scanAux_matchAt _ 0 m hm
  rcases mdMatchAt_spec hmatch with ⟨⟨hl1, -⟩, hend⟩
  have hspan := md_from_capture_span m l hfm
  rw [Prod.mk.injEq] at hspan
  rcases hspan with ⟨hs1, hs2⟩
  rw [List.getElem?_drop] at hend
  have hidx : m.start_index + (m.end_index - m.start_index - 1) = m.end_index - 1 := by omega
  rw [hidx] at hend
  rw [hs2]
  exact hend

theorem mdItems_spans (g : MDLink → List Char) (s : List Char) :
    ∀ (ms : List MDLink) (prev : Nat),
      (mdItems g s prev ms).map (fun it => (it.1, it.2.1))
        = ms.map (fun l => (l.start_index, l.end_index)) := by
  intro ms
  induction ms with
  | nil => intro prev; rfl
  | cons x xs ih =>
      intro prev
      simp only [mdItems, List.map_cons]
      rw [ih x.end_index]

theorem mdItems_escaped_mem (g : MDLink → List Char) (s : List Char) {c : Char} :
    ∀ (ms : List MDLink) (prev : Nat),
      SpanChain s.length prev (ms.map (fun l => (l.start_index, l.end_index))) →
      (prev = 0 ∨ s[prev - 1]? = some ')') →
      ∀ l ∈ ms, 0 < l.start_index → s[l.start_index - 1]? = some c →
      (c = '\x5c' ∨ c = '!') →
      (∀ x ∈ ms, s[x.end_index - 1]? = some ')') →
      (l.start_index, l.end_index, sliceStr s l.start_index l.end_index) ∈ mdItems g s prev ms := by
  intro ms
  induction ms with
  | nil => intro prev _ _ l hl; cases hl
  | cons x xs ih =>
      intro prev hchain hprev l hl hpos hpre hc hends
      rw [List.mem_cons] at hl
      rcases hl with rfl | hl
      · have hple : prev ≤ l.start_index := hchain.1
        have hlt : l.start_index < l.end_index := hchain.2.1
        have hle : l.end_index ≤ s.length := hchain.2.2.1
        have hpp : prev < l.start_index := by
          rcases Nat.lt_or_ge prev l.start_index with h | h
          · exact h
          · have hpe : prev = l.start_index := by omega
            rcases hprev with rfl | hrp
            · omega
            · rw [hpe] at hrp
              have hcc : some c = some ')' := by rw [← hpre, hrp]
              rcases hc with rfl | rfl
              · exact absurd (Option.some.inj hcc) (by decide)
              · exact absurd (Option.some.inj hcc) (by decide)
        have hlast : (sliceStr s prev l.start_index).getLast? = s[l.start_index - 1]? :=
          sliceStr_getLast? s hpp (by omega)
        have hcond : (sliceStr s prev l.start_index).getLast? = some '\x5c'
            ∨ (sliceStr s prev l.start_index).getLast? = some '!' := by
          rw [hlast, hpre]
          rcases hc with rfl | rfl
          · exact Or.inl rfl
          · exact Or.inr rfl
        simp only [mdItems]
        rw [if_pos hcond]
        exact List.mem_cons_self _ _
      · have hxend := hends x (List.mem_cons_self _ _)
        refine List.mem_cons_of_mem _
          (ih x.end_index hchain.2.2.2 (Or.inr hxend) l hl hpos hpre hc
            (fun y hy => hends y (List.mem_cons_of_mem _ hy)))

/-- Claim C4: escaped markers come back byte-identical. A raw directive
match of the escaped alternative (backslash included) never becomes an
`AIPRLink`, so its span is copied verbatim into the directive pass's
output; a kept markdown link whose immediately preceding source character
is a backslash or an exclamation mark is emitted as its original matched
text, so it appears verbatim in the link pass's output. -/
theorem escaped_markers_verbatim
    (tmpl : HeaderRenderData → Except (List Char) (List Char))
    (tmpl2 : MDRenderData → Except (List Char) (List Char))
    (s s2 : List Char) (num_words : Nat) (g1 : AIPRLink → List Char) (g2 : MDLink → List Char)
    (h1 : ∀ l ∈ find_aipr_links s, AIPRLink.render tmpl l num_words = Except.ok (g1 l))
    (h2 : ∀ l ∈ find_md_links s2, MDLink.render tmpl2 l = Except.ok (g2 l))
    (m : RawMatch AiprCap) (hm : m ∈ rawAiprScan s) (hcap : m.cap = AiprCap.escaped)
    (lnk : MDLink) (hlnk : lnk ∈ find_md_links s2) {c : Char} (hpos : 0 < lnk.start_index)
    (hpre : s2[lnk.start_index - 1]? = some c) (hc : c = '\x5c' ∨ c = '!') :
    (AIPRLink.from_capture s m = none
      ∧ ∃ u v, replace_all_aipr_links tmpl s num_words
          = some (u ++ sliceStr s m.start_index m.end_index ++ v))
    ∧ ∃ u v, replace_all_md_links tmpl2 s2
        = some (u ++ sliceStr s2 lnk.start_index lnk.end_index ++ v) := by
  have hrawA := scanAux_chain (s := s) aiprMatchAt_bounds (s.length + 1) 0
  have hrawspan := spanChain_forall hrawA (m.start_index, m.end_index)
    (List.mem_map_of_mem _ hm)
  have hnone : AIPRLink.from_capture s m = none := by
    unfold AIPRLink.from_capture
    rw [hcap]
  refine ⟨⟨hnone, ?_⟩, ?_⟩
  · rw [(replace_all_splice_spec tmpl tmpl2 s s2 num_words g1 g2 h1 h2).1]
    have hitems : ((find_aipr_links s).map
          (fun l => (l.start_index, l.end_index, g1 l))).map (fun it => (it.1, it.2.1))
        = (find_aipr_links s).map (fun l => (l.start_index, l.end_index)) := by
      rw [List.map_map]
      rfl
    have havoid : ∀ it ∈ (find_aipr_links s).map (fun l => (l.start_index, l.end_index, g1 l)),
        it.2.1 ≤ m.start_index ∨ m.end_index ≤ it.1 := by
      intro it hit
      rcases List.mem_map.1 hit with ⟨l, hl, rfl⟩
      exact filterMap_avoid (AIPRLink.from_capture s) _ _ from_capture_span
        (rawAiprScan s) 0 hrawA m hm hnone l hl
    rcases splice_gap s ((find_aipr_links s).map (fun l => (l.start_index, l.end_index, g1 l))) 0
        (by rw [hitems]; exact find_aipr_links_chain s)
        (Nat.zero_le _) (le_of_lt hrawspan.2.1) hrawspan.2.2
        havoid with ⟨u, v, huv⟩
    exact ⟨u, v, by rw [huv]⟩
  · rw [(replace_all_splice_spec tmpl tmpl2 s s2 num_words g1 g2 h1 h2).2]
    have hmem := mdItems_escaped_mem g2 s2 (find_md_links s2) 0 (find_md_links_chain s2)
      (Or.inl rfl) lnk hlnk hpos hpre hc (find_md_links_end_char s2)
    rcases item_in_splice s2 (mdItems g2 s2 0 (find_md_links s2)) 0 _ hmem with ⟨u, v, huv⟩
    exact ⟨u, v, by rw [huv]⟩

/-- Witness for C4: a concrete escaped directive and a concrete
backslash-escaped markdown link, both returned verbatim. -/
theorem escaped_markers_verbatim_witness :
    (AIPRLink.from_capture ("\x5c\x7b\x7b#q\x7d\x7d tail".data)
        ⟨0, 7, AiprCap.escaped⟩ = none
      ∧ ∃ u v, replace_all_aipr_links (fun _ => Except.ok ("H".data))
          ("\x5c\x7b\x7b#q\x7d\x7d tail".data) 2
          = some (u ++ sliceStr ("\x5c\x7b\x7b#q\x7d\x7d tail".data) 0 7 ++ v))
    ∧ ∃ u v, replace_all_md_links (fun _ => Except.ok ("L".data))
        ("\x5c[x](https://y.io)".data)
        = some (u ++ sliceStr ("\x5c[x](https://y.io)".data) 1 18 ++ v) :=
  escaped_markers_verbatim (fun _ => Except.ok ("H".data)) (fun _ => Except.ok ("L".data))
    ("\x5c\x7b\x7b#q\x7d\x7d tail".data) ("\x5c[x](https://y.io)".data) 2
    (fun _ => ("H".data)) (fun _ => ("L".data))
    (fun _ _ => rfl) (fun _ _ => rfl)
    ⟨0, 7, AiprCap.escaped⟩ (by decide) rfl
    ⟨1, 18, ("x".data), ("https://y.io".data)⟩ (by decide) (c := '\x5c') (by decide)
    (by decide) (Or.inl rfl)

/-- Claim C6: a directive marker with an unknown name and a markdown link
whose URL has no `http(s)` scheme are not errors: their capture resolvers
return `none`, so they are dropped from the replaceable match stream, and
their spans appear in the output unmodified as ordinary text. -/
theorem unknown_markers_left_unmodified
    (tmpl : HeaderRenderData → Except (List Char) (List Char))
    (tmpl2 : MDRenderData → Except (List Char) (List Char))
    (s s2 : List Char) (num_words : Nat) (g1 : AIPRLink → List Char) (g2 : MDLink → List Char)
    (h1 : ∀ l ∈ find_aipr_links s, AIPRLink.render tmpl l num_words = Except.ok (g1 l))
    (h2 : ∀ l ∈ find_md_links s2, MDLink.render tmpl2 l = Except.ok (g2 l))
    (m : RawMatch AiprCap) (hm : m ∈ rawAiprScan s)
    {name : List Char} {params : Option (List Char)}
    (hcap : m.cap = AiprCap.directive name params) (hname : ¬name = ("aipr_header".data))
    (m2 : RawMatch (List Char × List Char)) (hm2 : m2 ∈ rawMdScan s2)
    (hurl : (("https://".data).isPrefixOf m2.cap.2 || ("http://".data).isPrefixOf m2.cap.2)
        = false) :
    (AIPRLink.from_capture s m = none
      ∧ ∃ u v, replace_all_aipr_links tmpl s num_words
          = some (u ++ sliceStr s m.start_index m.end_index ++ v))
    ∧ (MDLink.from_capture m2 = none
      ∧ ∃ u v, replace_all_md_links tmpl2 s2
          = some (u ++ sliceStr s2 m2.start_index m2.end_index ++ v)) := by
  have hrawA := scanAux_chain (s := s) aiprMatchAt_bounds (s.length + 1) 0
  have hrawspan := spanChain_forall hrawA (m.start_index, m.end_index)
    (List.mem_map_of_mem _ hm)
  have hnone : AIPRLink.from_capture s m = none := by
    unfold AIPRLink.from_capture
    rw [hcap]
    simp [hname]
  have hrawM := scanAux_chain (s := s2) mdMatchAt_bounds (s2.length + 1) 0
  have hrawspan2 := spanChain_forall hrawM (m2.start_index, m2.end_index)
    (List.mem_map_of_mem _ hm2)
  have hnone2 : MDLink.from_capture m2 = none := by
    unfold MDLink.from_capture
    rw [hurl]
    rfl
  refine ⟨⟨hnone, ?_⟩, hnone2, ?_⟩
  · rw [(replace_all_splice_spec tmpl tmpl2 s s2 num_words g1 g2 h1 h2).1]
    have hitems : ((find_aipr_links s).map
          (fun l => (l.start_index, l.end_index, g1 l))).map (fun it => (it.1, it.2.1))
        = (find_aipr_links s).map (fun l => (l.start_index, l.end_index)) := by
      rw [List.map_map]
      rfl
    have havoid : ∀ it ∈ (find_aipr_links s).map (fun l => (l.start_index, l.end_index, g1 l)),
        it.2.1 ≤ m.start_index ∨ m.end_index ≤ it.1 := by
      intro it hit
      rcases List.mem_map.1 hit with ⟨l, hl, rfl⟩
      exact filterMap_avoid (AIPRLink.from_capture s) _ _ from_capture_span
        (rawAiprScan s) 0 hrawA m hm hnone l hl
    rcases splice_gap s ((find_aipr_links s).map (fun l => (l.start_index, l.end_index, g1 l))) 0
        (by rw [hitems]; exact find_aipr_links_chain s)
        (Nat.zero_le _) (le_of_lt hrawspan.2.1) hrawspan.2.2 havoid with ⟨u, v, huv⟩
    exact ⟨u, v, by rw [huv]⟩
  · rw [(replace_all_splice_spec tmpl tmpl2 s s2 num_words g1 g2 h1 h2).2]
    have havoid2 : ∀ it ∈ mdItems g2 s2 0 (find_md_links s2),
        it.2.1 ≤ m2.start_index ∨ m2.end_index ≤ it.1 := by
      intro it hit
      have hmm : (it.1, it.2.1)
          ∈ (mdItems g2 s2 0 (find_md_links s2)).map (fun it => (it.1, it.2.1)) :=
        List.mem_map_of_mem _ hit
      rw [mdItems_spans] at hmm
      rcases List.mem_map.1 hmm with ⟨l, hl, heq⟩
      have hav := filterMap_avoid MDLink.from_capture _ _ md_from_capture_span
        (rawMdScan s2) 0 hrawM m2 hm2 hnone2 l hl
      rw [Prod.mk.injEq] at heq
      rcases heq with ⟨he1, he2⟩
      rw [← he1, ← he2]
      exact hav
    rcases splice_gap s2 (mdItems g2 s2 0 (find_md_links s2)) 0
        (by rw [mdItems_spans]; exact find_md_links_chain s2)
        (Nat.zero_le _) (le_of_lt hrawspan2.2.1) hrawspan2.2.2 havoid2 with ⟨u, v, huv⟩
    exact ⟨u, v, by rw [huv]⟩

/-- Witness for C6: the unknown directive of the source's unit tests and a
concrete `ftp` link, both left unmodified. -/
theorem unknown_markers_left_unmodified_witness :
    (AIPRLink.from_capture ("\x7b\x7b#my_author ar.rs\x7d\x7d ok".data)
        ⟨0, 20, AiprCap.directive ("my_author".data) (some ("ar.rs".data))⟩ = none
      ∧ ∃ u v, replace_all_aipr_links (fun _ => Except.ok ("H".data))
          ("\x7b\x7b#my_author ar.rs\x7d\x7d ok".data) 2
          = some (u ++ sliceStr ("\x7b\x7b#my_author ar.rs\x7d\x7d ok".data) 0 20 ++ v))
    ∧ (MDLink.from_capture ⟨0, 12, (("a".data), ("ftp://x".data))⟩ = none
      ∧ ∃ u v, replace_all_md_links (fun _ => Except.ok ("L".data)) ("[a](ftp://x) ok".data)
          = some (u ++ sliceStr ("[a](ftp://x) ok".data) 0 12 ++ v)) :=
  unknown_markers_left_unmodified (fun _ => Except.ok ("H".data))
    (fun _ => Except.ok ("L".data))
    ("\x7b\x7b#my_author ar.rs\x7d\x7d ok".data) ("[a](ftp://x) ok".data) 2
    (fun _ => ("H".data)) (fun _ => ("L".data))
    (fun _ _ => rfl) (fun _ _ => rfl)
    ⟨0, 20, AiprCap.directive ("my_author".data) (some ("ar.rs".data))⟩ (by decide) rfl
    (by decide)
    ⟨0, 12, (("a".data), ("ftp://x".data))⟩ (by decide) (by decide)
